import Mathlib

/-!
# Verification of the K44 S-box service (`src/main.py`)

Shallow embedding of the mathematical core of the service: GF(2^8)
multiplication, multiplicative inverse, the affine transform, S-box and
inverse-S-box generation, the hex rendering, and the encrypt/decrypt
endpoints.  Machine bytes are modelled as `Nat` with masking exactly where
the Python code masks; fallible operations (list indexing, hex parsing,
UTF-8 decoding) return `Option`/`Except`.  The endpoints are modelled as
functions of the process state (`CURRENT_SBOX` / `CURRENT_INV_SBOX`),
passed explicitly.
-/

/-- Default K44 matrix, `K44_MATRIX` in `main.py`. -/
def K44_MATRIX : List Nat := [0x57, 0xAB, 0xD5, 0xEA, 0x75, 0xBA, 0x5D, 0xAE]

/-- Default K44 constant, `K44_CONST` in `main.py`. -/
def K44_CONST : Nat := 0x63

/-- The 8-iteration loop of `gf_mult`, fuelled by the iteration count.
Each step is the Python loop body: `if b & 1: p ^= a`, then shift `a`
left (XORing `0x11B` when bit 7 was set), then shift `b` right. -/
def gf_mult_loop : Nat → Nat → Nat → Nat → Nat
  | 0, _, _, p => p
  | n + 1, a, b, p =>
    gf_mult_loop n
      (if a &&& 0x80 ≠ 0 then (a <<< 1) ^^^ 0x11B else a <<< 1)
      (b >>> 1)
      (if b &&& 1 = 1 then p ^^^ a else p)

/-- `gf_mult` from `main.py`: GF(2^8) shift-and-XOR multiplication,
returning the accumulator masked to 8 bits. -/
def gf_mult (a b : Nat) : Nat := gf_mult_loop 8 a b 0 &&& 0xFF

/-- The search loop of `gf_inverse`: try candidates `i, i+1, ...` (`fuel`
many), returning the first one with `gf_mult b i == 1`, else 0 — mirroring
`for i in range(256): if gf_mult(byte, i) == 1: return i` / `return 0`. -/
def gf_inverse_search (b : Nat) : Nat → Nat → Nat
  | _, 0 => 0
  | i, fuel + 1 => if gf_mult b i = 1 then i else gf_inverse_search b (i + 1) fuel

/-- `gf_inverse` from `main.py`: brute-force multiplicative inverse, with
`gf_inverse 0 = 0`. -/
def gf_inverse (b : Nat) : Nat :=
  if b = 0 then 0 else gf_inverse_search b 0 256

/-- Inner loop of `apply_affine`: the XOR-parity bit for one output bit,
accumulated over `j = 0..7` exactly as the nested Python loop does. -/
def affine_bit (row byte_val : Nat) : Nat :=
  (List.range 8).foldl
    (fun bit j =>
      if (row >>> j) &&& 1 = 1 then
        if (byte_val >>> j) &&& 1 = 1 then bit ^^^ 1 else bit
      else bit)
    0

/-- `apply_affine` from `main.py`: assemble output bits 0..7 from the
parities (`result |= 1 << i` when the bit is nonzero), then XOR the
constant.  Row `i` of the matrix is `matrix[i]`; rows past the end of the
list default to 0 (the claims only use length-8 matrices, where the two
readings agree). -/
def apply_affine (byte_val : Nat) (matrix : List Nat) (constant : Nat) : Nat :=
  let result :=
    (List.range 8).foldl
      (fun result i =>
        if affine_bit (matrix.getD i 0) byte_val ≠ 0 then result ||| (1 <<< i)
        else result)
      0
  result ^^^ constant

/-- `generate_sbox_logic` from `main.py`: for `x = 0..255` append
`apply_affine (gf_inverse x) matrix constant`. -/
def generate_sbox_logic (matrix : List Nat) (constant : Nat) : List Nat :=
  (List.range 256).map fun x => apply_affine (gf_inverse x) matrix constant

/-- The inverse-table construction in `startup_event` / `run_analysis`:
`CURRENT_INV_SBOX = [0]*256`, then `for i, val in enumerate(table):
CURRENT_INV_SBOX[val] = i`. -/
def generate_inv_sbox (table : List Nat) : List Nat :=
  (List.range table.length).foldl
    (fun inv i => inv.set (table.getD i 0) i)
    (List.replicate 256 0)

/-- The S-box the process holds after `startup_event`. -/
def default_sbox : List Nat := generate_sbox_logic K44_MATRIX K44_CONST

/-- The inverse S-box the process holds after `startup_event`. -/
def default_inv_sbox : List Nat := generate_inv_sbox default_sbox

/-- One uppercase hexadecimal digit. -/
def hexDigit (n : Nat) : Char :=
  if n < 10 then Char.ofNat (48 + n) else Char.ofNat (55 + n)

/-- Uppercase hexadecimal digits of `n`, most significant first
(fuelled; `fuel ≥ 1` digits are always produced). -/
def hexCharsAux : Nat → Nat → List Char
  | 0, _ => []
  | fuel + 1, n => if n < 16 then [hexDigit n] else hexCharsAux fuel (n / 16) ++ [hexDigit (n % 16)]

/-- Python `f"{n:02X}"`: uppercase hexadecimal, left-padded with `0` to
width 2. -/
def toHex2 (n : Nat) : String :=
  let ds := hexCharsAux (n + 1) n
  ⟨if ds.length < 2 then List.replicate (2 - ds.length) '0' ++ ds else ds⟩

/-- A single entry of the hardcoded metrics dictionary of `run_analysis`:
an integer, an exact decimal literal (numerator / denominator), or a
string.  The decimal literals are never computed with, only reported. -/
inductive MetricVal where
  | int (n : Int)
  | rat (num : Nat) (den : Nat)
  | str (s : String)
deriving DecidableEq

/-- The hardcoded metrics dictionary of `run_analysis` ("Dummy Metrics
(Hardcoded sesuai Paper K44)"). -/
def k44_metrics : List (String × MetricVal) :=
  [("NL", .int 112), ("SAC", .rat 50073 100000), ("BIC-NL", .int 112),
   ("BIC-SAC", .rat 504 1000), ("LAP", .rat 625 10000), ("DAP", .rat 15625 1000000),
   ("DU", .int 4), ("AD", .int 7), ("TO", .str "Min"), ("CI", .int 0)]

/-- The JSON body returned by the `/run-research-analysis` endpoint. -/
structure AnalysisResult where
  sbox_hex : List String
  metrics : List (String × MetricVal)
deriving DecidableEq

/-- `run_analysis` from `main.py`: regenerate `CURRENT_SBOX` and
`CURRENT_INV_SBOX` from the supplied matrix/constant and return the
hex-rendered S-box together with the hardcoded metrics.  The result is
the response paired with the new process state. -/
def run_analysis (matrix : List Nat) (constant : Nat) :
    AnalysisResult × List Nat × List Nat :=
  let sbox := generate_sbox_logic matrix constant
  let inv := generate_inv_sbox sbox
  (⟨sbox.map toHex2, k44_metrics⟩, sbox, inv)

/-- UTF-8 encoding of one Unicode scalar value (Python
`str.encode('utf-8')`, per code point). -/
def utf8EncodeChar (c : Nat) : List Nat :=
  if c < 0x80 then [c]
  else if c < 0x800 then [0xC0 ||| (c >>> 6), 0x80 ||| (c &&& 0x3F)]
  else if c < 0x10000 then
    [0xE0 ||| (c >>> 12), 0x80 ||| ((c >>> 6) &&& 0x3F), 0x80 ||| (c &&& 0x3F)]
  else
    [0xF0 ||| (c >>> 18), 0x80 ||| ((c >>> 12) &&& 0x3F),
     0x80 ||| ((c >>> 6) &&& 0x3F), 0x80 ||| (c &&& 0x3F)]

/-- UTF-8 encoding of a sequence of code points. -/
def utf8Encode : List Nat → List Nat
  | [] => []
  | c :: cs => utf8EncodeChar c ++ utf8Encode cs

/-- Is `b` a UTF-8 continuation byte `0x80..0xBF`? -/
def isCont (b : Nat) : Bool := 0x80 ≤ b && b ≤ 0xBF

/-- Strict UTF-8 decoding (Python `bytes.decode('utf-8')`): rejects
continuation-byte starts, overlong encodings, surrogates and values above
`U+10FFFF`.  Fuelled for structural recursion; one leading byte is
consumed per step, so `fuel = length + 1` always suffices. -/
def utf8DecodeAux : Nat → List Nat → Option (List Nat)
  | 0, _ => none
  | _, [] => some []
  | fuel + 1, b :: rest =>
    if b < 0x80 then (utf8DecodeAux fuel rest).map (b :: ·)
    else if 0xC2 ≤ b && b ≤ 0xDF then
      match rest with
      | c1 :: rest' =>
        if isCont c1 then
          (utf8DecodeAux fuel rest').map ((((b - 0xC0) <<< 6) ||| (c1 - 0x80)) :: ·)
        else none
      | [] => none
    else if 0xE0 ≤ b && b ≤ 0xEF then
      match rest with
      | c1 :: c2 :: rest' =>
        let lo1 := if b = 0xE0 then 0xA0 else 0x80
        let hi1 := if b = 0xED then 0x9F else 0xBF
        if lo1 ≤ c1 && c1 ≤ hi1 && isCont c2 then
          (utf8DecodeAux fuel rest').map
            ((((b - 0xE0) <<< 12) ||| ((c1 - 0x80) <<< 6) ||| (c2 - 0x80)) :: ·)
        else none
      | _ => none
    else if 0xF0 ≤ b && b ≤ 0xF4 then
      match rest with
      | c1 :: c2 :: c3 :: rest' =>
        let lo1 := if b = 0xF0 then 0x90 else 0x80
        let hi1 := if b = 0xF4 then 0x8F else 0xBF
        if lo1 ≤ c1 && c1 ≤ hi1 && isCont c2 && isCont c3 then
          (utf8DecodeAux fuel rest').map
            ((((b - 0xF0) <<< 18) ||| ((c1 - 0x80) <<< 12) |||
              ((c2 - 0x80) <<< 6) ||| (c3 - 0x80)) :: ·)
        else none
      | _ => none
    else none

/-- Strict UTF-8 decoding of a byte sequence to code points. -/
def utf8Decode (bs : List Nat) : Option (List Nat) :=
  utf8DecodeAux (bs.length + 1) bs

/-- Python `str.strip().split()`: split on runs of whitespace, dropping
empty tokens.  Tokens are kept as character lists. -/
def splitWsAux : List Char → List Char → List (List Char)
  | [], cur => if cur = [] then [] else [cur.reverse]
  | c :: cs, cur =>
    if c.isWhitespace then
      if cur = [] then splitWsAux cs [] else cur.reverse :: splitWsAux cs []
    else splitWsAux cs (c :: cur)

/-- Whitespace tokenisation of a string, as in `ciphertext.strip().split()`. -/
def pySplit (s : String) : List (List Char) := splitWsAux s.data []

/-- Is `c` an ASCII base-16 digit? -/
def isHexDigitChar (c : Char) : Bool :=
  (('0' ≤ c) && (c ≤ '9')) || (('a' ≤ c) && (c ≤ 'f')) || (('A' ≤ c) && (c ≤ 'F'))

/-- Numeric value of an ASCII base-16 digit. -/
def hexVal (c : Char) : Nat :=
  if ('0' ≤ c) && (c ≤ '9') then c.toNat - '0'.toNat
  else if ('a' ≤ c) && (c ≤ 'f') then c.toNat - 'a'.toNat + 10
  else c.toNat - 'A'.toNat + 10

/-- Digit-sequence tail of Python `int(s, 16)`: digits with single
underscores allowed between digits, rejecting trailing or doubled
underscores. -/
def parseHexGo : Nat → List Char → Option Nat
  | acc, [] => some acc
  | acc, '_' :: cs =>
    match cs with
    | c :: cs' => if isHexDigitChar c then parseHexGo (16 * acc + hexVal c) cs' else none
    | [] => none
  | acc, c :: cs => if isHexDigitChar c then parseHexGo (16 * acc + hexVal c) cs else none

/-- Nonempty digit sequence of Python `int(s, 16)` (must start with a
digit, not an underscore). -/
def parseHexDigits : List Char → Option Nat
  | [] => none
  | c :: cs => if isHexDigitChar c then parseHexGo (hexVal c) cs else none

/-- Body of Python `int(s, 16)` after the sign: an optional `0x`/`0X`
prefix (which may be followed by a single underscore), then digits. -/
def parseHexBody : List Char → Option Nat
  | '0' :: 'x' :: r => (match r with | '_' :: r' => parseHexDigits r' | _ => parseHexDigits r)
  | '0' :: 'X' :: r => (match r with | '_' :: r' => parseHexDigits r' | _ => parseHexDigits r)
  | r => parseHexDigits r

/-- The ASCII fragment of Python `int(token, 16)`: optional sign, optional
`0x`/`0X` prefix, underscore-separated hex digits; arbitrary magnitude
(not limited to bytes).  The tokens come from a whitespace split, so
surrounding whitespace never occurs. -/
def pyIntHex : List Char → Option Int
  | '+' :: r => (parseHexBody r).map fun n => (n : Int)
  | '-' :: r => (parseHexBody r).map fun n => -(n : Int)
  | r => (parseHexBody r).map fun n => (n : Int)

/-- Python list indexing `l[i]` with an `int` index: negative indices
count from the end; out-of-range indexing is an `IndexError` (`none`). -/
def pyIndex (l : List Nat) (i : Int) : Option Nat :=
  if 0 ≤ i then l.get? i.toNat
  else if (-i).toNat ≤ l.length then l.get? (l.length - (-i).toNat) else none

/-- The substitution comprehension of `encrypt_test`:
`[table[b] for b in data]`, failing (`IndexError`) on any out-of-range
byte. -/
def substitute : List Nat → List Nat → Option (List Nat)
  | [], _ => some []
  | b :: rest, table =>
    match table.get? b, substitute rest table with
    | some v, some vs => some (v :: vs)
    | _, _ => none

/-- `inverse_substitute`: the decode-direction lookup is the same
positional table lookup, applied to the inverse table. -/
def inverse_substitute (data table : List Nat) : Option (List Nat) :=
  substitute data table

/-- The parsing comprehension of `decrypt_test`:
`[int(h, 16) for h in hex_vals]`, failing (`ValueError`) on the first
unparseable token. -/
def parseTokens : List (List Char) → Option (List Int)
  | [] => some []
  | t :: ts =>
    match pyIntHex t, parseTokens ts with
    | some v, some vs => some (v :: vs)
    | _, _ => none

/-- The lookup comprehension of `decrypt_test`:
`[CURRENT_INV_SBOX[b] for b in cipher_bytes]` with Python `int` indexing,
failing (`IndexError`) on any out-of-range index. -/
def substituteIdx : List Int → List Nat → Option (List Nat)
  | [], _ => some []
  | i :: rest, table =>
    match pyIndex table i, substituteIdx rest table with
    | some v, some vs => some (v :: vs)
    | _, _ => none

/-- `encrypt_test` from `main.py`, as a function of the current S-box:
UTF-8 encode the text, substitute each byte, render as space-separated
two-digit uppercase hex.  `none` models the `except Exception` branch
(HTTP 500). -/
def encrypt_test (sbox : List Nat) (text : String) : Option String :=
  match substitute (utf8Encode (text.data.map Char.toNat)) sbox with
  | some cipher => some (" ".intercalate (cipher.map toHex2))
  | none => none

/-- The two error responses of `decrypt_test`: `except ValueError` raises
HTTP 400 "Invalid Hex Data"; `except Exception` raises HTTP 500
"Decryption Failed".  Python's `UnicodeDecodeError` (and the range check
of `bytes(...)`) are `ValueError`s, so they land in the 400 branch;
`IndexError` is not, so it lands in the 500 branch. -/
inductive DecryptError where
  | invalidHexData
  | decryptionFailed
deriving DecidableEq

/-- HTTP status code of each `decrypt_test` error response. -/
def DecryptError.status : DecryptError → Nat
  | .invalidHexData => 400
  | .decryptionFailed => 500

/-- `decrypt_test` from `main.py`, as a function of the current inverse
S-box: tokenize, parse each token as a base-16 int (`ValueError` → 400),
index the inverse table (`IndexError` → 500), build a `bytes` value
(values ≥ 256 are a `ValueError` → 400) and UTF-8 decode it
(`UnicodeDecodeError` is a `ValueError` → 400). -/
def decrypt_test (inv : List Nat) (ciphertext : String) : Except DecryptError String :=
  match parseTokens (pySplit ciphertext) with
  | none => .error .invalidHexData
  | some vals =>
    match substituteIdx vals inv with
    | none => .error .decryptionFailed
    | some plain =>
      if plain.all (fun v => v < 256) then
        match utf8Decode plain with
        | some cps => .ok ⟨cps.map Char.ofNat⟩
        | none => .error .invalidHexData
      else .error .invalidHexData

/-- Modelled from the spec: carry-less (GF(2)-polynomial) multiplication
of bit-vectors encoded as naturals, fuelled by the bit width of `b`. -/
def polyMulAux : Nat → Nat → Nat → Nat
  | 0, _, _ => 0
  | fuel + 1, a, b => (if b &&& 1 = 1 then a else 0) ^^^ polyMulAux fuel (a <<< 1) (b >>> 1)

/-- Modelled from the spec: polynomial product of two bytes over GF(2). -/
def polyMul (a b : Nat) : Nat := polyMulAux 8 a b

/-- Modelled from the spec: remainder of polynomial division by
x^8+x^4+x^3+x+1 (0x11B), clearing bits `k+7` down to 8, top first.
`polyModFrom 7` reduces any 15-bit polynomial (a product of two bytes). -/
def polyModFrom : Nat → Nat → Nat
  | 0, p => p
  | k + 1, p => polyModFrom k (if p.testBit (k + 8) then p ^^^ (0x11B <<< k) else p)

/-- Modelled from the spec: "the product of `a` and `b` in GF(2^8) with
reduction polynomial x^8+x^4+x^3+x+1 (0x11B)" — polynomial multiplication
followed by reduction. -/
def spec_gf_product (a b : Nat) : Nat := polyModFrom 7 (polyMul a b)

/-- Pinned table of `gf_inverse` values for inputs 0..255. -/
def gfInvLit : List Nat :=
  [0, 1, 141, 246, 203, 82, 123, 209, 232, 79, 41, 192, 176, 225, 229, 199,
   116, 180, 170, 75, 153, 43, 96, 95, 88, 63, 253, 204, 255, 64, 238, 178,
   58, 110, 90, 241, 85, 77, 168, 201, 193, 10, 152, 21, 48, 68, 162, 194, 44,
   69, 146, 108, 243, 57, 102, 66, 242, 53, 32, 111, 119, 187, 89, 25, 29, 254,
   55, 103, 45, 49, 245, 105, 167, 100, 171, 19, 84, 37, 233, 9, 237, 92, 5,
   202, 76, 36, 135, 191, 24, 62, 34, 240, 81, 236, 97, 23, 22, 94, 175, 211,
   73, 166, 54, 67, 244, 71, 145, 223, 51, 147, 33, 59, 121, 183, 151, 133,
   16, 181, 186, 60, 182, 112, 208, 6, 161, 250, 129, 130, 131, 126, 127, 128,
   150, 115, 190, 86, 155, 158, 149, 217, 247, 2, 185, 164, 222, 106, 50, 109,
   216, 138, 132, 114, 42, 20, 159, 136, 249, 220, 137, 154, 251, 124, 46, 195,
   143, 184, 101, 72, 38, 200, 18, 74, 206, 231, 210, 98, 12, 224, 31, 239,
   17, 117, 120, 113, 165, 142, 118, 61, 189, 188, 134, 87, 11, 40, 47, 163,
   218, 212, 228, 15, 169, 39, 83, 4, 27, 252, 172, 230, 122, 7, 174, 99, 197,
   219, 226, 234, 148, 139, 196, 213, 157, 248, 144, 107, 177, 13, 214, 235,
   198, 14, 207, 173, 8, 78, 215, 227, 93, 80, 30, 179, 91, 35, 56, 52, 104,
   70, 3, 140, 221, 156, 125, 160, 205, 26, 65, 28]

/-- Pinned value of `default_sbox` (regression literal). -/
def sboxLit : List Nat :=
  [99, 52, 165, 33, 134, 224, 231, 178, 192, 253, 100, 144, 2, 125, 168, 185,
   36, 215, 54, 40, 5, 207, 132, 136, 161, 111, 55, 175, 156, 62, 190, 169,
   237, 16, 10, 8, 201, 86, 157, 45, 199, 34, 82, 148, 172, 235, 220, 59, 230,
   188, 19, 187, 163, 17, 250, 149, 244, 46, 217, 71, 216, 20, 246, 171, 126,
   203, 133, 173, 177, 251, 221, 57, 94, 81, 97, 234, 158, 91, 151, 222, 66,
   116, 225, 209, 1, 12, 228, 193, 252, 56, 114, 95, 28, 21, 211, 63, 104, 223,
   180, 25, 131, 9, 210, 194, 138, 23, 239, 38, 80, 68, 142, 186, 76, 43, 145,
   79, 22, 128, 67, 147, 124, 241, 229, 29, 32, 30, 154, 102, 49, 101, 50, 205,
   198, 13, 150, 53, 174, 44, 58, 88, 118, 200, 191, 162, 113, 197, 7, 236,
   15, 140, 24, 90, 152, 195, 123, 39, 226, 218, 112, 249, 73, 206, 77, 108,
   14, 232, 6, 212, 167, 122, 189, 127, 4, 3, 78, 47, 92, 42, 213, 233, 65,
   115, 27, 166, 245, 89, 143, 196, 106, 61, 179, 98, 117, 51, 26, 139, 164,
   48, 255, 160, 202, 240, 183, 182, 0, 96, 72, 84, 176, 74, 227, 120, 18, 243,
   129, 107, 109, 219, 69, 103, 208, 181, 184, 146, 85, 11, 155, 60, 238, 247,
   83, 31, 137, 170, 204, 214, 35, 75, 130, 254, 93, 37, 70, 121, 110, 64, 159,
   242, 141, 135, 153, 119, 248, 87, 105, 41]

/-- Pinned value of `default_inv_sbox` (regression literal). -/
def invSboxLit : List Nat :=
  [204, 84, 12, 173, 172, 20, 166, 146, 35, 101, 34, 225, 85, 133, 164, 148,
   33, 53, 212, 50, 61, 93, 116, 105, 150, 99, 194, 182, 92, 123, 125, 231,
   124, 3, 41, 236, 16, 241, 107, 155, 19, 255, 177, 113, 137, 39, 57, 175,
   197, 128, 130, 193, 1, 135, 18, 26, 89, 71, 138, 47, 227, 189, 29, 95, 245,
   180, 80, 118, 109, 218, 242, 59, 206, 160, 209, 237, 112, 162, 174, 115,
   108, 73, 42, 230, 207, 224, 37, 253, 139, 185, 151, 77, 176, 240, 72, 91,
   205, 74, 191, 0, 10, 129, 127, 219, 96, 254, 188, 215, 163, 216, 244, 25,
   158, 144, 90, 181, 81, 192, 140, 251, 211, 243, 169, 154, 120, 13, 64, 171,
   117, 214, 238, 100, 22, 66, 4, 249, 23, 232, 104, 195, 149, 248, 110, 186,
   11, 114, 223, 119, 43, 55, 134, 78, 152, 250, 126, 226, 28, 38, 76, 246,
   199, 24, 143, 52, 196, 2, 183, 168, 14, 31, 233, 63, 44, 67, 136, 27, 208,
   68, 7, 190, 98, 221, 203, 202, 222, 15, 111, 51, 49, 170, 30, 142, 8, 87,
   103, 153, 187, 145, 132, 40, 141, 36, 200, 65, 234, 131, 161, 21, 220, 83,
   102, 94, 167, 178, 235, 17, 60, 58, 157, 217, 46, 70, 79, 97, 5, 82, 156,
   210, 86, 122, 48, 6, 165, 179, 75, 45, 147, 32, 228, 106, 201, 121, 247,
   213, 56, 184, 62, 229, 252, 159, 54, 69, 88, 9, 239, 198]

set_option maxRecDepth 4000 in
set_option maxHeartbeats 4000000 in
/-- The brute-force `gf_inverse` table over 0..255, pinned once; all other
evaluations of `gf_inverse` go through this literal. -/
theorem gfInvRange_eq : (List.range 256).map gf_inverse = gfInvLit := by decide

/-- Entrywise form of `gfInvRange_eq`. -/
theorem gf_inverse_eq_lit (a : Nat) (h : a < 256) : gf_inverse a = gfInvLit.getD a 0 := by
  have h1 : ((List.range 256).map gf_inverse)[a]? = some (gf_inverse a) := by
    rw [List.getElem?_map, List.getElem?_range h]; rfl
  rw [gfInvRange_eq] at h1
  simp [List.getD_eq_getElem?_getD, h1]

set_option maxRecDepth 4000 in
set_option maxHeartbeats 1000000 in
/-- The default S-box, pinned. -/
theorem default_sbox_eq : default_sbox = sboxLit := by
  have h : (fun x => apply_affine (gf_inverse x) K44_MATRIX K44_CONST)
      = (fun v => apply_affine v K44_MATRIX K44_CONST) ∘ gf_inverse := rfl
  rw [default_sbox, generate_sbox_logic, h, ← List.map_map, gfInvRange_eq]
  decide

set_option maxRecDepth 4000 in
set_option maxHeartbeats 1000000 in
/-- The default inverse S-box, pinned. -/
theorem default_inv_sbox_eq : default_inv_sbox = invSboxLit := by
  rw [default_inv_sbox, default_sbox_eq]
  decide

/-- The `a`-update of the `gf_mult` loop body ("xtime": multiply by x and
reduce). -/
def xtime (a : Nat) : Nat :=
  if a &&& 0x80 ≠ 0 then (a <<< 1) ^^^ 0x11B else a <<< 1

/-- The XOR accumulated by the `gf_mult` loop, written as a scan over the
bits of `b` with the running `a` kept reduced by `xtime`. -/
def mulScanX : Nat → Nat → Nat → Nat
  | 0, _, _ => 0
  | f + 1, a, b => (if b &&& 1 = 1 then a else 0) ^^^ mulScanX f (xtime a) (b >>> 1)

theorem xor_cancel_right (x s : Nat) : (x ^^^ s) ^^^ s = x := by
  rw [Nat.xor_assoc, Nat.xor_self, Nat.xor_zero]

theorem xor_rotate (x y s : Nat) : (x ^^^ s) ^^^ (y ^^^ s) = x ^^^ y := by
  rw [Nat.xor_comm y s, ← Nat.xor_assoc, Nat.xor_assoc x s s, Nat.xor_self, Nat.xor_zero]

theorem xor_right_comm (x y s : Nat) : (x ^^^ y) ^^^ s = (x ^^^ s) ^^^ y := by
  rw [Nat.xor_assoc, Nat.xor_comm y s, ← Nat.xor_assoc]

theorem xor_mix (x y z w : Nat) : (x ^^^ y) ^^^ (z ^^^ w) = (x ^^^ z) ^^^ (y ^^^ w) := by
  apply Nat.eq_of_testBit_eq
  intro i
  simp only [Nat.testBit_xor]
  cases x.testBit i <;> cases y.testBit i <;> cases z.testBit i <;> cases w.testBit i <;> rfl

theorem shiftLeft_xor_distrib (x y k : Nat) : (x ^^^ y) <<< k = (x <<< k) ^^^ (y <<< k) := by
  apply Nat.eq_of_testBit_eq
  intro i
  simp only [Nat.testBit_shiftLeft, Nat.testBit_xor]
  cases h : decide (i ≥ k) <;> simp

/-- Dropping a clear top bit tightens a power-of-two bound. -/
theorem lt_two_pow_of_clear_top {x k : Nat} (hx : x < 2 ^ (k + 1))
    (hb : x.testBit k = false) : x < 2 ^ k := by
  apply Nat.lt_pow_two_of_testBit
  intro i hi
  rcases Nat.eq_or_lt_of_le hi with h | h
  · exact h ▸ hb
  · exact Nat.testBit_lt_two_pow (Nat.lt_of_lt_of_le hx (Nat.pow_le_pow_right (by norm_num) h))

theorem testBit7_of_and (a : Nat) : (a &&& 0x80 ≠ 0) ↔ a.testBit 7 = true := by
  have h : a &&& 0x80 = (a.testBit 7).toNat * 2 ^ 7 := by
    have := Nat.and_two_pow a 7
    norm_num at this ⊢
    exact this
  rw [h]
  cases a.testBit 7 <;> simp

theorem xtime_lt {a : Nat} (h : a < 256) : xtime a < 256 := by
  unfold xtime
  by_cases hb : a &&& 0x80 ≠ 0
  · rw [if_pos hb]
    have h9 : (a <<< 1) ^^^ 0x11B < 2 ^ 9 := by
      apply Nat.xor_lt_two_pow
      · rw [Nat.shiftLeft_eq]
        norm_num
        omega
      · norm_num
    have hbit : ((a <<< 1) ^^^ 0x11B).testBit 8 = false := by
      rw [Nat.testBit_xor, Nat.testBit_shiftLeft]
      have h7 : a.testBit 7 = true := (testBit7_of_and a).mp hb
      have h283 : Nat.testBit 283 8 = true := by decide
      norm_num [h7, h283]
    have := lt_two_pow_of_clear_top (k := 8) h9 hbit
    norm_num at this
    exact this
  · rw [if_neg hb]
    have h7 : a.testBit 7 = false := by
      rcases Bool.eq_false_or_eq_true (a.testBit 7) with h7 | h7
      · exact absurd ((testBit7_of_and a).mpr h7) hb
      · exact h7
    have ha : a < 2 ^ 7 := lt_two_pow_of_clear_top (k := 7) (by norm_num; omega) h7
    rw [Nat.shiftLeft_eq]
    norm_num at ha ⊢
    omega

theorem mulScanX_lt : ∀ (f a b : Nat), a < 256 → mulScanX f a b < 256
  | 0, _, _, _ => by norm_num [mulScanX]
  | f + 1, a, b, h => by
    show (if b &&& 1 = 1 then a else 0) ^^^ mulScanX f (xtime a) (b >>> 1) < 256
    have h1 : (if b &&& 1 = 1 then a else 0) < 2 ^ 8 := by
      split <;> norm_num
      exact h
    have h2 := mulScanX_lt f (xtime a) (b >>> 1) (xtime_lt h)
    have hx := Nat.xor_lt_two_pow (n := 8) h1 (by norm_num; exact h2)
    have h256 : (2 : Nat) ^ 8 = 256 := by norm_num
    rw [h256] at hx
    exact hx

theorem gf_mult_loop_eq_scan : ∀ (f a b p : Nat), gf_mult_loop f a b p = p ^^^ mulScanX f a b
  | 0, a, b, p => by simp [gf_mult_loop, mulScanX]
  | f + 1, a, b, p => by
    show gf_mult_loop f (xtime a) (b >>> 1) (if b &&& 1 = 1 then p ^^^ a else p)
        = p ^^^ ((if b &&& 1 = 1 then a else 0) ^^^ mulScanX f (xtime a) (b >>> 1))
    rw [gf_mult_loop_eq_scan f]
    by_cases hb : b &&& 1 = 1
    · simp only [hb, if_true]
      rw [Nat.xor_assoc]
    · simp only [hb, if_false, Nat.zero_xor]

/-- For byte inputs, `gf_mult` is exactly the reduced-scan accumulation. -/
theorem gf_mult_eq_scan (a b : Nat) (h : a < 256) : gf_mult a b = mulScanX 8 a b := by
  rw [gf_mult, gf_mult_loop_eq_scan, Nat.zero_xor]
  have h2 := mulScanX_lt 8 a b h
  have h3 : mulScanX 8 a b &&& 2 ^ 8 - 1 = mulScanX 8 a b :=
    Nat.and_pow_two_sub_one_of_lt_two_pow (by norm_num; exact h2)
  norm_num at h3
  exact h3

/-- `gf_mult` always lands in 0..255 (the final `&&& 0xFF`). -/
theorem gf_mult_lt (a b : Nat) : gf_mult a b < 256 := by
  have := Nat.and_le_right (n := gf_mult_loop 8 a b 0) (m := 0xFF)
  rw [gf_mult]
  omega

theorem polyModFrom_zero_val : ∀ k, polyModFrom k 0 = 0
  | 0 => rfl
  | k + 1 => by
    show polyModFrom k (if (0 : Nat).testBit (k + 8) then 0 ^^^ (0x11B <<< k) else 0) = 0
    rw [Nat.zero_testBit, if_neg (by simp)]
    exact polyModFrom_zero_val k

theorem polyModFrom_id : ∀ (d j x : Nat), x < 2 ^ (8 + j) → polyModFrom (j + d) x = polyModFrom j x
  | 0, _, _, _ => rfl
  | d + 1, j, x, hx => by
    show polyModFrom (j + d) (if x.testBit (j + d + 8) then x ^^^ (0x11B <<< (j + d)) else x)
        = polyModFrom j x
    have hb : x.testBit (j + d + 8) = false :=
      Nat.testBit_lt_two_pow
        (Nat.lt_of_lt_of_le hx (Nat.pow_le_pow_right (by norm_num) (by omega)))
    rw [hb, if_neg (by simp)]
    exact polyModFrom_id d j x hx

/-- Reduction is the identity on bytes. -/
theorem polyModFrom_small {x : Nat} (hx : x < 256) : polyModFrom 7 x = x := by
  have h := polyModFrom_id 7 0 x (by norm_num; exact hx)
  simpa using h

/-- Reduction is GF(2)-linear (each conditional step distributes over XOR). -/
theorem polyModFrom_xor : ∀ (k x y : Nat),
    polyModFrom k (x ^^^ y) = polyModFrom k x ^^^ polyModFrom k y
  | 0, _, _ => rfl
  | k + 1, x, y => by
    show polyModFrom k (if (x ^^^ y).testBit (k + 8) then (x ^^^ y) ^^^ (0x11B <<< k) else x ^^^ y)
        = polyModFrom k (if x.testBit (k + 8) then x ^^^ (0x11B <<< k) else x) ^^^
          polyModFrom k (if y.testBit (k + 8) then y ^^^ (0x11B <<< k) else y)
    rw [← polyModFrom_xor k]
    congr 1
    rw [Nat.testBit_xor]
    cases hx : x.testBit (k + 8) <;> cases hy : y.testBit (k + 8) <;> simp
    · rw [Nat.xor_assoc]
    · rw [xor_right_comm]
    · rw [xor_rotate]

/-- The reduction polynomial itself (at any shift up to 6) reduces to 0. -/
theorem polyModFrom_poly (k : Nat) (hk : k ≤ 6) : polyModFrom 7 (0x11B <<< k) = 0 := by
  have hlt : 0x11B <<< k < 2 ^ (8 + (k + 1)) := by
    rw [Nat.shiftLeft_eq]
    have : (0x11B : Nat) * 2 ^ k < 2 ^ 9 * 2 ^ k := by
      apply Nat.mul_lt_mul_of_lt_of_le (by norm_num) (Nat.le_refl _)
      exact Nat.pos_pow_of_pos k (by norm_num)
    calc 0x11B * 2 ^ k < 2 ^ 9 * 2 ^ k := this
      _ = 2 ^ (8 + (k + 1)) := by rw [← Nat.pow_add]; congr 1; omega
  have h7 : 7 = (k + 1) + (6 - k) := by omega
  rw [h7, polyModFrom_id (6 - k) (k + 1) _ hlt]
  show polyModFrom k (if (0x11B <<< k).testBit (k + 8) then
      (0x11B <<< k) ^^^ (0x11B <<< k) else 0x11B <<< k) = 0
  have hb : (0x11B <<< k).testBit (k + 8) = true := by
    rw [Nat.testBit_shiftLeft]
    have h8 : k + 8 - k = 8 := by omega
    have hge : k ≤ k + 8 := by omega
    have h283 : Nat.testBit 283 8 = true := by decide
    simp [h8, hge, h283]
  rw [hb, if_pos rfl, Nat.xor_self]
  exact polyModFrom_zero_val k

theorem polyMulAux_zero_left : ∀ (f b : Nat), polyMulAux f 0 b = 0
  | 0, _ => rfl
  | f + 1, b => by
    show (if b &&& 1 = 1 then 0 else 0) ^^^ polyMulAux f (0 <<< 1) (b >>> 1) = 0
    rw [ite_self, Nat.zero_shiftLeft, polyMulAux_zero_left f, Nat.xor_zero]

/-- Carry-less multiplication is GF(2)-linear in its first argument. -/
theorem polyMulAux_xor_left : ∀ (f x y b : Nat),
    polyMulAux f (x ^^^ y) b = polyMulAux f x b ^^^ polyMulAux f y b
  | 0, _, _, _ => by show (0 : Nat) = 0 ^^^ 0; rw [Nat.xor_zero]
  | f + 1, x, y, b => by
    show (if b &&& 1 = 1 then x ^^^ y else 0) ^^^ polyMulAux f ((x ^^^ y) <<< 1) (b >>> 1)
        = ((if b &&& 1 = 1 then x else 0) ^^^ polyMulAux f (x <<< 1) (b >>> 1)) ^^^
          ((if b &&& 1 = 1 then y else 0) ^^^ polyMulAux f (y <<< 1) (b >>> 1))
    rw [shiftLeft_xor_distrib, polyMulAux_xor_left f, xor_mix]
    congr 1
    split
    · rfl
    · rw [Nat.xor_zero]

/-- Any multiple of the reduction polynomial reduces to 0. -/
theorem polyModFrom_mul_poly : ∀ (f k b : Nat), f + k ≤ 7 →
    polyModFrom 7 (polyMulAux f (0x11B <<< k) b) = 0
  | 0, _, _, _ => polyModFrom_zero_val 7
  | f + 1, k, b, h => by
    show polyModFrom 7 ((if b &&& 1 = 1 then 0x11B <<< k else 0) ^^^
        polyMulAux f ((0x11B <<< k) <<< 1) (b >>> 1)) = 0
    have hsh : (0x11B <<< k) <<< 1 = 0x11B <<< (k + 1) := (Nat.shiftLeft_add 0x11B k 1).symm
    rw [hsh, polyModFrom_xor, polyModFrom_mul_poly f (k + 1) (b >>> 1) (by omega)]
    rw [Nat.xor_zero]
    split
    · exact polyModFrom_poly k (by omega)
    · exact polyModFrom_zero_val 7

/-- Unreduced shift agrees with `xtime` modulo the reduction polynomial. -/
theorem shiftLeft_eq_xtime_xor (a : Nat) :
    a <<< 1 = xtime a ^^^ (if a &&& 0x80 ≠ 0 then 0x11B else 0) := by
  unfold xtime
  by_cases hb : a &&& 0x80 ≠ 0
  · rw [if_pos hb, if_pos hb, xor_cancel_right]
  · rw [if_neg hb, if_neg hb, Nat.xor_zero]

/-- Key invariant: the interleaved-reduction scan of `gf_mult` computes
the same value as multiplying first and reducing once at the end. -/
theorem mulScanX_eq_polyMod : ∀ (f : Nat), f ≤ 8 → ∀ (a b : Nat), a < 256 →
    mulScanX f a b = polyModFrom 7 (polyMulAux f a b)
  | 0, _, _, _, _ => (polyModFrom_zero_val 7).symm
  | f + 1, hf, a, b, ha => by
    show (if b &&& 1 = 1 then a else 0) ^^^ mulScanX f (xtime a) (b >>> 1)
        = polyModFrom 7 ((if b &&& 1 = 1 then a else 0) ^^^ polyMulAux f (a <<< 1) (b >>> 1))
    rw [polyModFrom_xor, shiftLeft_eq_xtime_xor a, polyMulAux_xor_left, polyModFrom_xor]
    have hkill : polyModFrom 7 (polyMulAux f (if a &&& 0x80 ≠ 0 then 0x11B else 0) (b >>> 1)) = 0 := by
      split
      · have h := polyModFrom_mul_poly f 0 (b >>> 1) (by omega)
        rw [Nat.shiftLeft_zero] at h
        exact h
      · rw [polyMulAux_zero_left]
        exact polyModFrom_zero_val 7
    rw [hkill, Nat.xor_zero, ← mulScanX_eq_polyMod f (by omega) (xtime a) (b >>> 1) (xtime_lt ha)]
    congr 1
    split
    · exact (polyModFrom_small ha).symm
    · exact (polyModFrom_zero_val 7).symm

/-- `gf_mult` on bytes is the GF(2^8) product (multiply, then reduce by
0x11B). -/
theorem gf_mult_eq_spec_product (a b : Nat) (ha : a < 256) :
    gf_mult a b = spec_gf_product a b := by
  rw [gf_mult_eq_scan a b ha, spec_gf_product, polyMul]
  exact mulScanX_eq_polyMod 8 (by omega) a b ha

/-- Prefixes of the inverse-table construction loop: the state after the
first `n` iterations of `for i, val in enumerate(table): inv[val] = i`. -/
def invFold (table : List Nat) (n : Nat) : List Nat :=
  (List.range n).foldl (fun inv i => inv.set (table.getD i 0) i) (List.replicate 256 0)

theorem generate_inv_sbox_eq_invFold (table : List Nat) :
    generate_inv_sbox table = invFold table table.length := rfl

theorem invFold_succ (table : List Nat) (n : Nat) :
    invFold table (n + 1) = (invFold table n).set (table.getD n 0) n := by
  unfold invFold
  rw [List.range_succ, List.foldl_append]
  rfl

theorem invFold_length (table : List Nat) : ∀ n, (invFold table n).length = 256
  | 0 => List.length_replicate 256 0
  | n + 1 => by rw [invFold_succ, List.length_set]; exact invFold_length table n

/-- The inverse-table loop, characterised: after `n` iterations, position
`v` holds the largest index `j < n` with `table[j] = v`, or the sentinel 0
if no such index exists. -/
theorem invFold_getD (table : List Nat) : ∀ (n v : Nat), v < 256 →
    ((∃ j, j < n ∧ table.getD j 0 = v) →
      table.getD ((invFold table n).getD v 0) 0 = v ∧ (invFold table n).getD v 0 < n ∧
      ∀ k, k < n → table.getD k 0 = v → k ≤ (invFold table n).getD v 0) ∧
    ((∀ j, j < n → table.getD j 0 ≠ v) → (invFold table n).getD v 0 = 0)
  | 0, v, hv => by
    constructor
    · rintro ⟨j, hj, _⟩
      omega
    · intro _
      show (List.replicate 256 (0 : Nat)).getD v 0 = 0
      rw [List.getD_eq_getElem?_getD, List.getElem?_replicate_of_lt hv]
      rfl
  | n + 1, v, hv => by
    have IH := invFold_getD table n v hv
    have hlen : (invFold table n).length = 256 := invFold_length table n
    rw [invFold_succ]
    by_cases he : table.getD n 0 = v
    · have hset : ((invFold table n).set (table.getD n 0) n).getD v 0 = n := by
        rw [he]
        have hvlen : v < (invFold table n).length := by omega
        rw [List.getD_eq_getElem?_getD, List.getElem?_set_self hvlen]
        rfl
      constructor
      · intro _
        rw [hset]
        exact ⟨he, by omega, fun k hk _ => by omega⟩
      · intro hnone
        exact absurd he (hnone n (by omega))
    · have hset : ((invFold table n).set (table.getD n 0) n).getD v 0
          = (invFold table n).getD v 0 := by
        generalize table.getD n 0 = e at he
        rw [List.getD_eq_getElem?_getD, List.getElem?_set_ne he, ← List.getD_eq_getElem?_getD]
      rw [hset]
      constructor
      · rintro ⟨j, hj, hjv⟩
        have hjn : j < n := by
          rcases Nat.lt_succ_iff_lt_or_eq.mp hj with h | h
          · exact h
          · exact absurd (h ▸ hjv) he
        obtain ⟨h1, h2, h3⟩ := IH.1 ⟨j, hjn, hjv⟩
        refine ⟨h1, by omega, fun k hk hkv => ?_⟩
        rcases Nat.lt_succ_iff_lt_or_eq.mp hk with h | h
        · exact h3 k h hkv
        · exact absurd (h ▸ hkv) he
      · intro hnone
        exact IH.2 fun j hj => hnone j (by omega)

/-- The length of the constructed inverse table (always 256, no failure). -/
theorem generate_inv_sbox_length (table : List Nat) :
    (generate_inv_sbox table).length = 256 := invFold_length table _

/-- `substitute` characterised: on success the output has the length of
the input and each output byte is the table lookup of the input byte at
the same position. -/
theorem substitute_spec : ∀ (data table out : List Nat),
    substitute data table = some out →
    out.length = data.length ∧ ∀ i, out.get? i = (data.get? i).bind table.get?
  | [], _, out, h => by
    simp only [substitute] at h
    injection h with h'
    subst h'
    exact ⟨rfl, fun i => by cases i <;> rfl⟩
  | d :: ds, table, out, h => by
    revert h
    show (match table.get? d, substitute ds table with
      | some v, some vs => some (v :: vs)
      | _, _ => none) = some out → _
    cases hv : table.get? d with
    | none => intro h; cases h
    | some v =>
      cases hrest : substitute ds table with
      | none => intro h; cases h
      | some vs =>
        intro h
        have hout : out = v :: vs := by
          simp at h
          exact h.symm
        subst hout
        obtain ⟨hlen, hidx⟩ := substitute_spec ds table vs hrest
        refine ⟨by simp [hlen], fun i => ?_⟩
        cases i with
        | zero => exact hv.symm
        | succ i => exact hidx i

theorem xor_lt_256 {x y : Nat} (hx : x < 256) (hy : y < 256) : x ^^^ y < 256 := by
  have h := Nat.xor_lt_two_pow (n := 8) (by norm_num; exact hx) (by norm_num; exact hy)
  norm_num at h
  exact h

theorem or_shift_lt {acc i : Nat} (hacc : acc < 256) (hi : i < 8) :
    acc ||| (1 <<< i) < 256 := by
  have h1 : 1 <<< i < 2 ^ 8 := by
    rw [Nat.one_shiftLeft]
    exact Nat.pow_lt_pow_right (by norm_num) hi
  have := Nat.or_lt_two_pow (n := 8) (by norm_num; exact hacc) h1
  norm_num at this
  exact this

theorem affine_fold_lt (byte_val : Nat) (matrix : List Nat) :
    ∀ (l : List Nat), (∀ i ∈ l, i < 8) → ∀ acc, acc < 256 →
    l.foldl (fun result i =>
      if affine_bit (matrix.getD i 0) byte_val ≠ 0 then result ||| (1 <<< i)
      else result) acc < 256
  | [], _, acc, hacc => hacc
  | i :: is, hmem, acc, hacc => by
    apply affine_fold_lt byte_val matrix is (fun j hj => hmem j (List.mem_cons_of_mem i hj))
    show (if affine_bit (matrix.getD i 0) byte_val ≠ 0 then acc ||| (1 <<< i) else acc) < 256
    split
    · exact or_shift_lt hacc (hmem i (List.mem_cons_self i is))
    · exact hacc

/-- `apply_affine` always produces a byte when the constant is a byte:
only bits 0..7 are assembled, and XOR with a byte stays below 256. -/
theorem apply_affine_lt (byte_val : Nat) (matrix : List Nat) {constant : Nat}
    (hc : constant < 256) : apply_affine byte_val matrix constant < 256 := by
  have hfold := affine_fold_lt byte_val matrix (List.range 8)
    (fun i hi => List.mem_range.mp hi) 0 (by norm_num)
  exact xor_lt_256 hfold hc

theorem gf_mult_loop_zero_b : ∀ (f a p : Nat), gf_mult_loop f a 0 p = p
  | 0, _, _ => rfl
  | f + 1, a, p => by
    have step : gf_mult_loop (f + 1) a 0 p
        = gf_mult_loop f (if a &&& 0x80 ≠ 0 then (a <<< 1) ^^^ 0x11B else a <<< 1) (0 >>> 1)
          (if (0 : Nat) &&& 1 = 1 then p ^^^ a else p) := rfl
    rw [step, if_neg (show ¬((0 : Nat) &&& 1 = 1) by norm_num)]
    exact gf_mult_loop_zero_b f _ p

/-- Multiplying by 0 yields 0 (the accumulator is never touched). -/
theorem gf_mult_zero_right (a : Nat) : gf_mult a 0 = 0 := by
  show gf_mult_loop 8 a 0 0 &&& 0xFF = 0
  rw [gf_mult_loop_zero_b]
  rfl

/-- Multiplying a byte by 1 yields the byte. -/
theorem gf_mult_one_right (a : Nat) (ha : a < 256) : gf_mult a 1 = a := by
  show gf_mult_loop 8 a 1 0 &&& 0xFF = a
  have step : gf_mult_loop 8 a 1 0
      = gf_mult_loop 7 (if a &&& 0x80 ≠ 0 then (a <<< 1) ^^^ 0x11B else a <<< 1) (1 >>> 1)
        (if (1 : Nat) &&& 1 = 1 then 0 ^^^ a else 0) := rfl
  have h0 : (1 : Nat) >>> 1 = 0 := rfl
  rw [step, if_pos (show (1 : Nat) &&& 1 = 1 by norm_num), h0, gf_mult_loop_zero_b, Nat.zero_xor]
  have h2 : a &&& 2 ^ 8 - 1 = a := Nat.and_pow_two_sub_one_of_lt_two_pow (by norm_num; exact ha)
  norm_num at h2
  exact h2

/-- A single unparseable token makes the whole parsing comprehension fail. -/
theorem parseTokens_none : ∀ (ts : List (List Char)) (t : List Char), t ∈ ts →
    pyIntHex t = none → parseTokens ts = none
  | t' :: ts', t, ht, hp => by
    show (match pyIntHex t', parseTokens ts' with
      | some v, some vs => some (v :: vs)
      | _, _ => none) = none
    rcases List.mem_cons.mp ht with rfl | hmem
    · rw [hp]
    · rw [parseTokens_none ts' t hmem hp]
      cases pyIntHex t' <;> rfl

/-- Any request with an unparseable token is answered with the
`ValueError` branch: HTTP 400 "Invalid Hex Data". -/
theorem decrypt_test_badRequest (inv : List Nat) (s : String)
    (h : ∃ t ∈ pySplit s, pyIntHex t = none) :
    decrypt_test inv s = .error .invalidHexData := by
  obtain ⟨t, ht, hp⟩ := h
  unfold decrypt_test
  rw [parseTokens_none (pySplit s) t ht hp]

theorem shiftRight_and_one_mod (m j : Nat) (hj : j < 8) :
    ((m % 256) >>> j) &&& 1 = (m >>> j) &&& 1 := by
  have h1 : ∀ x : Nat, (x >>> j) &&& 1 = x / 2 ^ j % 2 := fun x => by
    rw [Nat.and_one_is_mod, Nat.shiftRight_eq_div_pow]
  rw [h1, h1]
  have ht : (m % 256).testBit j = m.testBit j := by
    have h256 : (256 : Nat) = 2 ^ 8 := by norm_num
    rw [h256, Nat.testBit_mod_two_pow]
    simp [hj]
  rw [Nat.testBit_to_div_mod, Nat.testBit_to_div_mod] at ht
  have hiff := decide_eq_decide.mp ht
  omega

/-- The parity bit only depends on the low 8 bits of the row and of the
input byte. -/
theorem affine_bit_low (row byte_val : Nat) :
    affine_bit row byte_val = affine_bit (row % 256) (byte_val % 256) := by
  unfold affine_bit
  apply List.foldl_ext
  intro acc j hj
  have hj8 : j < 8 := List.mem_range.mp hj
  rw [shiftRight_and_one_mod row j hj8, shiftRight_and_one_mod byte_val j hj8]

theorem getD_map_mod (matrix : List Nat) (i : Nat) (h : i < matrix.length) :
    (matrix.map (· % 256)).getD i 0 = (matrix.getD i 0) % 256 := by
  rw [List.getD_eq_getElem?_getD, List.getElem?_map, List.getElem?_eq_getElem h,
    List.getD_eq_getElem?_getD, List.getElem?_eq_getElem h]
  rfl

/-- `apply_affine` only depends on the low 8 bits of each matrix row and
of the input byte. -/
theorem apply_affine_low (byte_val : Nat) (matrix : List Nat) (constant : Nat)
    (hm : matrix.length = 8) :
    apply_affine byte_val matrix constant
      = apply_affine (byte_val % 256) (matrix.map (· % 256)) constant := by
  show ((List.range 8).foldl (fun result i =>
      if affine_bit (matrix.getD i 0) byte_val ≠ 0 then result ||| (1 <<< i)
      else result) 0) ^^^ constant
    = ((List.range 8).foldl (fun result i =>
      if affine_bit ((matrix.map (· % 256)).getD i 0) (byte_val % 256) ≠ 0 then result ||| (1 <<< i)
      else result) 0) ^^^ constant
  congr 1
  apply List.foldl_ext
  intro acc i hi
  have hi8 : i < 8 := List.mem_range.mp hi
  show (if affine_bit (matrix.getD i 0) byte_val ≠ 0 then acc ||| (1 <<< i) else acc)
    = (if affine_bit ((matrix.map (· % 256)).getD i 0) (byte_val % 256) ≠ 0 then acc ||| (1 <<< i) else acc)
  rw [getD_map_mod matrix i (by omega), ← affine_bit_low]

theorem generate_sbox_logic_length (matrix : List Nat) (constant : Nat) :
    (generate_sbox_logic matrix constant).length = 256 := by
  unfold generate_sbox_logic
  rw [List.length_map, List.length_range]

theorem generate_sbox_logic_getD (matrix : List Nat) (constant : Nat) (x : Nat)
    (hx : x < 256) :
    (generate_sbox_logic matrix constant).getD x 0
      = apply_affine (gf_inverse x) matrix constant := by
  unfold generate_sbox_logic
  rw [List.getD_eq_getElem?_getD, List.getElem?_map, List.getElem?_range hx]
  rfl

theorem generate_sbox_logic_mem_lt (matrix : List Nat) {constant : Nat}
    (hc : constant < 256) : ∀ v ∈ generate_sbox_logic matrix constant, v < 256 := by
  intro v hv
  obtain ⟨x, _, rfl⟩ := List.mem_map.mp hv
  exact apply_affine_lt (gf_inverse x) matrix hc

/-- The sixteen uppercase hexadecimal digit characters. -/
def hexUpperChars : List Char :=
  ['0', '1', '2', '3', '4', '5', '6', '7', '8', '9', 'A', 'B', 'C', 'D', 'E', 'F']

set_option maxRecDepth 2000 in
/-- Rendering a byte with `f"{x:02X}"` gives exactly two uppercase hex
characters. -/
theorem toHex2_facts : ∀ v, v < 256 →
    (toHex2 v).length = 2 ∧ ∀ c ∈ (toHex2 v).data, c ∈ hexUpperChars := by decide

deriving instance DecidableEq for Except

set_option maxRecDepth 4000 in
set_option maxHeartbeats 1000000 in
/-- C1: under the built-in default matrix/constant, decoding inverts
encoding: for every byte x, applying the inverse table to the
substitution of `[x]` yields `[x]` again, and
`Decode (Encode "HELLO") = "HELLO"` (the intermediate ciphertext being
"5E FB 9E 9E DE"). -/
theorem claim_C1_default_roundtrip :
    (∀ x, x < 256 →
      ((substitute [x] default_sbox).bind
        fun c => inverse_substitute c default_inv_sbox) = some [x]) ∧
    encrypt_test default_sbox "HELLO" = some "5E FB 9E 9E DE" ∧
    decrypt_test default_inv_sbox "5E FB 9E 9E DE" = Except.ok "HELLO" := by
  refine ⟨?_, ?_, ?_⟩
  · have h : ∀ x, x < 256 →
        ((substitute [x] sboxLit).bind
          fun c => inverse_substitute c invSboxLit) = some [x] := by decide
    intro x hx
    rw [default_sbox_eq, default_inv_sbox_eq]
    exact h x hx
  · rw [default_sbox_eq]
    decide
  · rw [default_inv_sbox_eq]
    decide

/-- Witness for C1 at the concrete byte 65. -/
theorem claim_C1_default_roundtrip_witness :
    ((substitute [65] default_sbox).bind
      fun c => inverse_substitute c default_inv_sbox) = some [65] :=
  claim_C1_default_roundtrip.1 65 (by norm_num)

set_option maxRecDepth 4000 in
set_option maxHeartbeats 1000000 in
/-- C2: with the built-in default matrix and constant 0x63,
`generate_sbox_logic` produces a permutation of 0..255. -/
theorem claim_C2_default_sbox_perm :
    List.Perm (generate_sbox_logic K44_MATRIX K44_CONST) (List.range 256) := by
  show List.Perm default_sbox (List.range 256)
  rw [default_sbox_eq]
  decide

/-- C3: for bytes a and b, `gf_mult a b` is the product of a and b in
GF(2^8) with reduction polynomial 0x11B (carry-less multiplication
followed by polynomial reduction), and `gf_mult` always returns a value
in 0..255, on all pairs. -/
theorem claim_C3_gf_mult_correct : ∀ a b : Nat,
    (a < 256 → b < 256 → gf_mult a b = spec_gf_product a b) ∧ gf_mult a b < 256 :=
  fun a b => ⟨fun ha _ => gf_mult_eq_spec_product a b ha, gf_mult_lt a b⟩

/-- Witness for C3 at a = 0x57, b = 0x83. -/
theorem claim_C3_gf_mult_correct_witness :
    gf_mult 87 131 = spec_gf_product 87 131 ∧ gf_mult 87 131 < 256 :=
  ⟨(claim_C3_gf_mult_correct 87 131).1 (by norm_num) (by norm_num),
   (claim_C3_gf_mult_correct 87 131).2⟩

set_option maxRecDepth 4000 in
set_option maxHeartbeats 1000000 in
/-- C4: field identities: `gf_mult a 0 = 0` and `gf_mult a 1 = a` for
every byte a, `gf_mult a (gf_inverse a) = 1` for every nonzero byte a,
and `gf_inverse 0 = 0`. -/
theorem claim_C4_field_identities :
    (∀ a, a < 256 →
      gf_mult a 0 = 0 ∧ gf_mult a 1 = a ∧ (a ≠ 0 → gf_mult a (gf_inverse a) = 1)) ∧
    gf_inverse 0 = 0 := by
  constructor
  · have hlit : ∀ a, a < 256 → a ≠ 0 → gf_mult a (gfInvLit.getD a 0) = 1 := by decide
    intro a ha
    refine ⟨gf_mult_zero_right a, gf_mult_one_right a ha, fun h0 => ?_⟩
    rw [gf_inverse_eq_lit a ha]
    exact hlit a ha h0
  · rfl

/-- Witness for C4 at a = 2. -/
theorem claim_C4_field_identities_witness :
    gf_mult 2 0 = 0 ∧ gf_mult 2 1 = 2 ∧ gf_mult 2 (gf_inverse 2) = 1 ∧ gf_inverse 0 = 0 :=
  ⟨(claim_C4_field_identities.1 2 (by norm_num)).1,
   (claim_C4_field_identities.1 2 (by norm_num)).2.1,
   (claim_C4_field_identities.1 2 (by norm_num)).2.2 (by norm_num),
   claim_C4_field_identities.2⟩

/-- C5: for every 8-entry matrix and byte constant, the generated table
has exactly 256 entries, the entry at index x being
`apply_affine (gf_inverse x) matrix constant` (ascending x), and the
analysis endpoint renders it as 256 two-character uppercase hex
tokens. -/
theorem claim_C5_sbox_shape_and_hex : ∀ (matrix : List Nat) (constant : Nat),
    matrix.length = 8 → constant < 256 →
    (generate_sbox_logic matrix constant).length = 256 ∧
    (∀ x, x < 256 → (generate_sbox_logic matrix constant).getD x 0
        = apply_affine (gf_inverse x) matrix constant) ∧
    (run_analysis matrix constant).1.sbox_hex.length = 256 ∧
    (∀ s ∈ (run_analysis matrix constant).1.sbox_hex,
      s.length = 2 ∧ ∀ c ∈ s.data, c ∈ hexUpperChars) := by
  intro matrix constant hm hc
  refine ⟨generate_sbox_logic_length matrix constant,
    fun x hx => generate_sbox_logic_getD matrix constant x hx, ?_, ?_⟩
  · show ((generate_sbox_logic matrix constant).map toHex2).length = 256
    rw [List.length_map, generate_sbox_logic_length]
  · intro s hs
    have hs' : ∃ v ∈ generate_sbox_logic matrix constant, toHex2 v = s := List.mem_map.mp hs
    obtain ⟨v, hv, rfl⟩ := hs'
    exact toHex2_facts v (generate_sbox_logic_mem_lt matrix hc v hv)

/-- Witness for C5 at the default parameters. -/
theorem claim_C5_sbox_shape_and_hex_witness :
    (generate_sbox_logic K44_MATRIX K44_CONST).length = 256 ∧
    (generate_sbox_logic K44_MATRIX K44_CONST).getD 0 0
      = apply_affine (gf_inverse 0) K44_MATRIX K44_CONST ∧
    (run_analysis K44_MATRIX K44_CONST).1.sbox_hex.length = 256 :=
  ⟨(claim_C5_sbox_shape_and_hex K44_MATRIX K44_CONST (by decide) (by decide)).1,
   (claim_C5_sbox_shape_and_hex K44_MATRIX K44_CONST (by decide) (by decide)).2.1 0 (by norm_num),
   (claim_C5_sbox_shape_and_hex K44_MATRIX K44_CONST (by decide) (by decide)).2.2.1⟩

/-- C6: the inverse-table construction starts from 256 zero sentinels and
writes `inv[table[i]] = i` for i ascending; for any (possibly
non-bijective) byte table, each position v of the result holds the
largest index mapping to v, positions never produced keep the sentinel 0,
and no error is raised (the result always has 256 entries). -/
theorem claim_C6_inverse_table_policy : ∀ (table : List Nat),
    table.length = 256 → (∀ v ∈ table, v < 256) →
    (generate_inv_sbox table).length = 256 ∧
    generate_inv_sbox table = (List.range 256).foldl
      (fun inv i => inv.set (table.getD i 0) i) (List.replicate 256 0) ∧
    ∀ v, v < 256 →
      ((∃ i, i < 256 ∧ table.getD i 0 = v) →
        table.getD ((generate_inv_sbox table).getD v 0) 0 = v ∧
        (generate_inv_sbox table).getD v 0 < 256 ∧
        ∀ j, j < 256 → table.getD j 0 = v → j ≤ (generate_inv_sbox table).getD v 0) ∧
      ((∀ i, i < 256 → table.getD i 0 ≠ v) → (generate_inv_sbox table).getD v 0 = 0) := by
  intro table hlen hvals
  have hrw : generate_inv_sbox table = invFold table 256 := by
    rw [generate_inv_sbox_eq_invFold, hlen]
  refine ⟨generate_inv_sbox_length table, by rw [hrw]; rfl, fun v hv => ?_⟩
  rw [hrw]
  exact invFold_getD table 256 v hv

set_option maxRecDepth 4000 in
set_option maxHeartbeats 1000000 in
/-- Witness for C6 at the constant (non-bijective) table sending every
byte to 5: position 5 keeps the largest producing index 255, position 7
keeps the sentinel 0. -/
theorem claim_C6_inverse_table_policy_witness :
    (generate_inv_sbox (List.replicate 256 5)).getD 5 0 = 255 ∧
    (generate_inv_sbox (List.replicate 256 5)).getD 7 0 = 0 := by
  have h := claim_C6_inverse_table_policy (List.replicate 256 5) (by decide) (by decide)
  constructor
  · have h5 := (h.2.2 5 (by norm_num)).1 ⟨0, by norm_num, by decide⟩
    have hall := h5.2.2 255 (by norm_num) (by decide)
    omega
  · exact (h.2.2 7 (by norm_num)).2 (by decide)

set_option maxRecDepth 4000 in
/-- C7 counterexample: the token "100" is valid base-16 syntax but not a
byte value (it parses to 256); Decode("100") under the default state
fails with the generic HTTP 500 "Decryption Failed", not with the
HTTP 400 "Invalid Hex Data" client error the claim requires. -/
theorem claim_C7_counterexample :
    pyIntHex ['1', '0', '0'] = some 256 ∧
    decrypt_test default_inv_sbox "100" = Except.error DecryptError.decryptionFailed ∧
    decrypt_test default_inv_sbox "100" ≠ Except.error DecryptError.invalidHexData ∧
    DecryptError.decryptionFailed.status = 500 := by
  rw [default_inv_sbox_eq]
  decide

/-- C7 (amended): every Decode input containing a whitespace-separated
token that is not parseable base-16 integer syntax fails with the
client-input error HTTP 400 "Invalid Hex Data", for any active inverse
table; in particular Decode("ZZ") and Decode("41 G2") fail this way.
(A token that parses to a value outside 0..255 may instead fail with the
generic HTTP 500.) -/
theorem claim_C7_amended_unparseable_400 :
    (∀ (inv : List Nat) (s : String), (∃ t ∈ pySplit s, pyIntHex t = none) →
      decrypt_test inv s = Except.error DecryptError.invalidHexData) ∧
    decrypt_test default_inv_sbox "ZZ" = Except.error DecryptError.invalidHexData ∧
    decrypt_test default_inv_sbox "41 G2" = Except.error DecryptError.invalidHexData ∧
    DecryptError.invalidHexData.status = 400 := by
  refine ⟨fun inv s h => decrypt_test_badRequest inv s h, ?_, ?_, rfl⟩
  · exact decrypt_test_badRequest _ _ ⟨['Z', 'Z'], by decide, by decide⟩
  · exact decrypt_test_badRequest _ _ ⟨['G', '2'], by decide, by decide⟩

/-- Witness for the amended C7 at the input "ZZ" with the empty table
state. -/
theorem claim_C7_amended_unparseable_400_witness :
    decrypt_test [] "ZZ" = Except.error DecryptError.invalidHexData :=
  claim_C7_amended_unparseable_400.1 [] "ZZ" ⟨['Z', 'Z'], by decide, by decide⟩

/-- C8: the metrics report of the analysis endpoint is a fixed constant,
identical for any two well-formed inputs and equal to the hardcoded
`k44_metrics` literal — never recomputed from the generated table. -/
theorem claim_C8_metrics_constant : ∀ (m1 : List Nat) (c1 : Nat) (m2 : List Nat) (c2 : Nat),
    m1.length = 8 → c1 < 256 → m2.length = 8 → c2 < 256 →
    (run_analysis m1 c1).1.metrics = (run_analysis m2 c2).1.metrics ∧
    (run_analysis m1 c1).1.metrics = k44_metrics :=
  fun m1 c1 m2 c2 _ _ _ _ =>
    have h1 : (run_analysis m1 c1).1.metrics = k44_metrics := rfl
    have h2 : (run_analysis m2 c2).1.metrics = k44_metrics := rfl
    ⟨h1.trans h2.symm, h1⟩

/-- Witness for C8: the default matrix and the zero matrix get the same
metrics. -/
theorem claim_C8_metrics_constant_witness :
    (run_analysis K44_MATRIX K44_CONST).1.metrics
      = (run_analysis (List.replicate 8 0) 0).1.metrics ∧
    (run_analysis K44_MATRIX K44_CONST).1.metrics = k44_metrics :=
  claim_C8_metrics_constant K44_MATRIX K44_CONST (List.replicate 8 0) 0
    (by decide) (by decide) (by decide) (by decide)

/-- C9: substitution preserves length and order for any table and data:
whenever the lookup comprehension succeeds, the output length equals the
input length and each output byte is the table lookup of the input byte
at the same position only (no state between bytes). -/
theorem claim_C9_substitute_positional : ∀ (table data out : List Nat),
    substitute data table = some out →
    out.length = data.length ∧ ∀ i, out.get? i = (data.get? i).bind table.get? :=
  fun table data out h => substitute_spec data table out h

/-- Witness for C9 at table [7, 8] and data [1, 0, 1]. -/
theorem claim_C9_substitute_positional_witness :
    ([8, 7, 8] : List Nat).length = ([1, 0, 1] : List Nat).length ∧
    ([8, 7, 8] : List Nat).get? 1 = (([1, 0, 1] : List Nat).get? 1).bind ([7, 8] : List Nat).get? :=
  ⟨(claim_C9_substitute_positional [7, 8] [1, 0, 1] [8, 7, 8] (by decide)).1,
   (claim_C9_substitute_positional [7, 8] [1, 0, 1] [8, 7, 8] (by decide)).2 1⟩

/-- C10: for every 8-entry matrix, byte constant and arbitrary input,
`apply_affine` lands in 0..255 and depends only on the low 8 bits of the
input and of each matrix row; hence every generated table entry is a
byte, so the inverse-table write always indexes within the 256-entry
sentinel list. -/
theorem claim_C10_affine_byte_safety : ∀ (matrix : List Nat) (constant byte_val : Nat),
    matrix.length = 8 → constant < 256 →
    apply_affine byte_val matrix constant < 256 ∧
    apply_affine byte_val matrix constant
      = apply_affine (byte_val % 256) (matrix.map (· % 256)) constant ∧
    (∀ v ∈ generate_sbox_logic matrix constant, v < 256) ∧
    (∀ v ∈ generate_sbox_logic matrix constant,
      v < (List.replicate 256 (0 : Nat)).length) ∧
    (generate_inv_sbox (generate_sbox_logic matrix constant)).length = 256 := by
  intro matrix c b hm hc
  refine ⟨apply_affine_lt b matrix hc, apply_affine_low b matrix c hm,
    generate_sbox_logic_mem_lt matrix hc, fun v hv => ?_, generate_inv_sbox_length _⟩
  rw [List.length_replicate]
  exact generate_sbox_logic_mem_lt matrix hc v hv

/-- Witness for C10 at the default matrix, constant 0x63 and the
out-of-range input 999. -/
theorem claim_C10_affine_byte_safety_witness :
    apply_affine 999 K44_MATRIX K44_CONST < 256 ∧
    apply_affine 999 K44_MATRIX K44_CONST
      = apply_affine (999 % 256) (K44_MATRIX.map (· % 256)) K44_CONST :=
  ⟨(claim_C10_affine_byte_safety K44_MATRIX K44_CONST 999 (by decide) (by decide)).1,
   (claim_C10_affine_byte_safety K44_MATRIX K44_CONST 999 (by decide) (by decide)).2.1⟩
